import Mathlib

/-!
Shallow embedding of the process-scoped synchronization registry and
deadlock-detection subsystem of `src/os8/src/syscall/sync.rs`.

Each `sys_*` definition below is a direct translation of the Rust function
of the same name.  Conventions:
- `Vec<Option<T>>` slot tables become `List (Option _)`; indexing followed by
  `as_ref().unwrap()` becomes `slotGet`, whose `none` result models the Rust
  panic (index out of range or unwrap of a free slot).
- Vec index assignment `v[i] = x` becomes `List.set i x`; the Rust panic on an
  out-of-range write has no effect in `List.set` (a no-op), so theorems that
  depend on such writes carry explicit in-range hypotheses matching the
  non-panicking executions of the source.
- The external blocking primitives (`mutex.lock()`, `sem.down()`, ...) are out
  of scope for this file per the spec; a syscall that would delegate to them is
  summarized by the `granted` outcome carrying the post-grant ledger state.
- The unbounded `while` loops of the two detectors are translated with an
  explicit fuel argument; `none`/`fuelOut` marks fuel exhaustion, and fuel
  sufficiency for the bounds the code relies on is proved below.
- Machine integers: thread/resource ids and counts are `usize` in the source
  and are modeled as `Nat`; `-= 1` on a `usize` is modeled with truncated `Nat`
  subtraction and every theorem touching such a decrement carries the
  positivity hypothesis under which the two agree.
-/

namespace Os8Sync

/-- Mutex handle flavor chosen by `sys_mutex_create`: `MutexSpin` when the
`blocking` argument is false, `MutexBlocking` otherwise.  The handle's
behaviour is external; only its presence in the slot table matters here. -/
inductive MutexKind where
  | spin
  | blocking
deriving DecidableEq

/-- The per-process synchronization state mutated by the syscalls of
`sync.rs` (the fields of `ProcessControlBlockInner` that this file touches).
`semaphore_list` stores for an allocated slot the `res_count` the semaphore
was created with (`Semaphore::new(res_count)` keeps that count internally);
`condvar_list` slots carry no data relevant to this file. -/
structure PState where
  mutex_list : List (Option MutexKind)
  mutex_alloc : List (Option Nat)
  mutex_request : List (Option Nat)
  semaphore_list : List (Option Nat)
  sem_avail : List Nat
  sem_alloc : List (List Nat)
  sem_request : List (Option Nat)
  condvar_list : List (Option Unit)
  deadlock_det_enabled : Bool
deriving DecidableEq

/-- Rust `table[i].as_ref().unwrap()` on a slot table: `none` models the panic
(either `i` out of range or the slot currently free). -/
def slotGet (l : List (Option α)) (i : Nat) : Option α :=
  l.getD i none

/-- Rust `table.iter().enumerate().find(|(_, item)| item.is_none()).map(|(id, _)| id)`:
the first (smallest) index whose slot is `None`. -/
def findFree : List (Option α) → Option Nat
  | [] => none
  | none :: _ => some 0
  | some _ :: rest => (findFree rest).map (· + 1)

/-- `sys_mutex_create`: install the new handle in the first free slot, or push
a new slot (the source pushes and then returns `len - 1`, i.e. the old
length).  Alongside the handle the source clears/pushes the `mutex_alloc`
entry for that id. -/
def sys_mutex_create (st : PState) (blocking : Bool) : Int × PState :=
  let mutex : Option MutexKind := if !blocking then some .spin else some .blocking
  match findFree st.mutex_list with
  | some id =>
      ((id : Nat), { st with
        mutex_list := st.mutex_list.set id mutex,
        mutex_alloc := st.mutex_alloc.set id none })
  | none =>
      ((st.mutex_list.length : Nat), { st with
        mutex_list := st.mutex_list ++ [mutex],
        mutex_alloc := st.mutex_alloc ++ [none] })

/-- Outcome of a syscall that may panic, may be rejected by the deadlock
detector, or may delegate to the external blocking primitive.
`panic` models the Rust panic on an invalid slot; `fuelOut` is a model
artifact for detector-loop fuel exhaustion (shown unreachable where the code
relies on it); `deadlock st` is the `-0xdead` return with the process state at
the return point; `granted st` summarizes delegation to the external primitive
followed by the post-grant ledger update. -/
inductive SysResult where
  | panic
  | fuelOut
  | deadlock (st : PState)
  | granted (st : PState)
deriving DecidableEq

/-- True exactly on the `deadlock` outcome (the `-0xdead` return). -/
def SysResult.isDeadlock : SysResult → Bool
  | .deadlock _ => true
  | _ => false

/-- The process state carried by a non-panic, non-fuelOut outcome. -/
def SysResult.stateOf : SysResult → Option PState
  | .deadlock s => some s
  | .granted s => some s
  | _ => none

/-- The wait-for chain walk inside `sys_mutex_lock` (the `while let` loop):
follow `mutex_alloc[mid]` to the holder, reject if it was already visited,
else follow `mutex_request[holder]` to the next mutex.  `visited` models the
`BTreeSet` (only insertion and membership are used); the fuel argument makes
the source's unbounded loop structurally recursive, `none` = fuel exhausted,
`some true` = deadlock reported, `some false` = loop left without a report. -/
def mutexWalk (mutex_alloc mutex_request : List (Option Nat)) :
    Nat → List Nat → Nat → Option Bool
  | 0, _, _ => none
  | fuel + 1, visited, mid =>
    match mutex_alloc.getD mid none with
    | none => some false
    | some tid2 =>
      if tid2 ∈ visited then some true
      else
        match mutex_request.getD tid2 none with
        | some mid2 => mutexWalk mutex_alloc mutex_request fuel (tid2 :: visited) mid2
        | none => some false

/-- `sys_mutex_lock(mutex_id)` for the calling thread `tid`: fetch the handle
(panic on a bad slot), record `mutex_request[tid] = Some(mutex_id)`, run the
walk when detection is enabled (with fuel `mutex_request.len() + 1`, a bound
proved sufficient below for well-formed states), and either return the
deadlock error without clearing the request, or delegate and on return set
`mutex_alloc[mutex_id] = Some(tid)` and clear `mutex_request[tid]`. -/
def sys_mutex_lock (st : PState) (tid mutex_id : Nat) : SysResult :=
  match slotGet st.mutex_list mutex_id with
  | none => .panic
  | some _ =>
    let st1 := { st with mutex_request := st.mutex_request.set tid (some mutex_id) }
    let grant : SysResult := .granted { st1 with
      mutex_alloc := st1.mutex_alloc.set mutex_id (some tid),
      mutex_request := st1.mutex_request.set tid none }
    if st1.deadlock_det_enabled then
      match mutexWalk st1.mutex_alloc st1.mutex_request
          (st1.mutex_request.length + 1) [tid] mutex_id with
      | none => .fuelOut
      | some true => .deadlock st1
      | some false => grant
    else grant

/-- `sys_mutex_unlock(mutex_id)`: fetch the handle (panic on a bad slot),
delegate `mutex.unlock()` to the external primitive, set
`mutex_alloc[mutex_id] = None`, return 0.  The source never reads the calling
thread's id, so the definition takes none. -/
def sys_mutex_unlock (st : PState) (mutex_id : Nat) : Option (Int × PState) :=
  match slotGet st.mutex_list mutex_id with
  | none => none
  | some _ => some (0, { st with mutex_alloc := st.mutex_alloc.set mutex_id none })

/-- `sys_semaphore_create(res_count)`: install `Semaphore::new(res_count)` in
the first free slot (resetting `sem_avail[id]` and zeroing column `id` of
every thread's `sem_alloc` row) or push a new slot (pushing `res_count` onto
`sem_avail` and a 0 onto every row). -/
def sys_semaphore_create (st : PState) (res_count : Nat) : Int × PState :=
  match findFree st.semaphore_list with
  | some id =>
      ((id : Nat), { st with
        semaphore_list := st.semaphore_list.set id (some res_count),
        sem_avail := st.sem_avail.set id res_count,
        sem_alloc := st.sem_alloc.map (fun row => row.set id 0) })
  | none =>
      ((st.semaphore_list.length : Nat), { st with
        semaphore_list := st.semaphore_list ++ [some res_count],
        sem_avail := st.sem_avail ++ [res_count],
        sem_alloc := st.sem_alloc.map (fun row => row ++ [0]) })

/-- `sys_semaphore_up(sem_id)` for calling thread `tid`: fetch the handle
(panic on a bad slot), delegate `sem.up()`, then `sem_avail[sem_id] += 1` and
`sem_alloc[tid][sem_id] -= 1` (a `usize` decrement: meaningful only under the
caller precondition that the held count is nonzero), return 0. -/
def sys_semaphore_up (st : PState) (tid sem_id : Nat) : Option (Int × PState) :=
  match slotGet st.semaphore_list sem_id with
  | none => none
  | some _ => some (0, { st with
      sem_avail := st.sem_avail.set sem_id (st.sem_avail.getD sem_id 0 + 1),
      sem_alloc := st.sem_alloc.set tid
        ((st.sem_alloc.getD tid []).set sem_id
          ((st.sem_alloc.getD tid []).getD sem_id 0 - 1)) })

/-- The initial `not_finished` set of the semaphore detector: the source
inserts `tid2` whenever `!t_alloc.is_empty()`, i.e. whenever the thread's
`sem_alloc` row is a non-empty vector (regardless of the values in it).
`BTreeSet` iteration order is ascending, which the filtered range preserves. -/
def initUnfinished (sem_alloc : List (List Nat)) : List Nat :=
  (List.range sem_alloc.length).filter (fun t => !(sem_alloc.getD t []).isEmpty)

/-- The inner `for (sid, num) in sem_alloc[tid2]` loop releasing a finished
thread's holdings into `work`: `work[sid] += num` for each index of the row
(rows never exceed `work` in length in non-panicking executions). -/
def addAlloc (work row : List Nat) : List Nat :=
  work.mapIdx (fun sid w => w + row.getD sid 0)

/-- One pass of the semaphore detector over the pending (`not_finished`)
threads in ascending order: a thread with a pending request on a semaphore
whose `work` count is 0 is skipped; any other thread is finished — its row is
released into `work` and it is collected into the `finished` list.  Returns
(`finished`, final `work`). -/
def passStep (sem_request : List (Option Nat)) (sem_alloc : List (List Nat)) :
    List Nat → List Nat → List Nat × List Nat
  | [], work => ([], work)
  | t :: rest, work =>
    let blocked : Bool :=
      match sem_request.getD t none with
      | some sid => work.getD sid 0 == 0
      | none => false
    if blocked then passStep sem_request sem_alloc rest work
    else
      let work1 := addAlloc work (sem_alloc.getD t [])
      let res := passStep sem_request sem_alloc rest work1
      (t :: res.1, res.2)

/-- The outer `while !all_finished && !all_released` loop of the semaphore
detector: stop with the current pending set when it is empty or when a pass
finished no thread; otherwise remove the finished threads and repeat.  Fuel
makes the loop structurally recursive; `none` = fuel exhausted (pending-set
length is proved to be enough fuel below). -/
def bankerLoop (sem_request : List (Option Nat)) (sem_alloc : List (List Nat)) :
    Nat → List Nat → List Nat → Option (List Nat)
  | _, _, [] => some []
  | 0, _, _ :: _ => none
  | fuel + 1, work, t :: rest =>
    let res := passStep sem_request sem_alloc (t :: rest) work
    if res.1.isEmpty then some (t :: rest)
    else bankerLoop sem_request sem_alloc fuel res.2
      ((t :: rest).filter (fun x => !res.1.contains x))

/-- `sys_semaphore_down(sem_id)` for calling thread `tid`: fetch the handle
(panic on a bad slot), record `sem_request[tid] = Some(sem_id)`, run the
safety check when detection is enabled and return the deadlock error (without
clearing the request) when the fixpoint pending set is nonempty; otherwise
delegate `sem.down()` and on return clear `sem_request[tid]`, decrement
`sem_avail[sem_id]` and increment `sem_alloc[tid][sem_id]`. -/
def sys_semaphore_down (st : PState) (tid sem_id : Nat) : SysResult :=
  match slotGet st.semaphore_list sem_id with
  | none => .panic
  | some _ =>
    let st1 := { st with sem_request := st.sem_request.set tid (some sem_id) }
    let grant : SysResult := .granted { st1 with
      sem_request := st1.sem_request.set tid none,
      sem_avail := st1.sem_avail.set sem_id (st1.sem_avail.getD sem_id 0 - 1),
      sem_alloc := st1.sem_alloc.set tid
        ((st1.sem_alloc.getD tid []).set sem_id
          ((st1.sem_alloc.getD tid []).getD sem_id 0 + 1)) }
    if st1.deadlock_det_enabled then
      let pending := initUnfinished st1.sem_alloc
      match bankerLoop st1.sem_request st1.sem_alloc pending.length st1.sem_avail pending with
      | none => .fuelOut
      | some finalPending => if finalPending.isEmpty then grant else .deadlock st1
    else grant

/-- `sys_condvar_create`: install a fresh condvar handle in the first free
slot or push a new one; the `_arg` parameter of the source is unused. -/
def sys_condvar_create (st : PState) : Int × PState :=
  match findFree st.condvar_list with
  | some id =>
      ((id : Nat), { st with condvar_list := st.condvar_list.set id (some ()) })
  | none =>
      ((st.condvar_list.length : Nat),
        { st with condvar_list := st.condvar_list ++ [some ()] })

/-- `sys_condvar_signal(condvar_id)`: fetch the handle (panic on a bad slot),
delegate `condvar.signal()`; no registry state changes. -/
def sys_condvar_signal (st : PState) (condvar_id : Nat) : Option (Int × PState) :=
  match slotGet st.condvar_list condvar_id with
  | none => none
  | some _ => some (0, st)

/-- `sys_condvar_wait(condvar_id, mutex_id)`: fetch both handles (panic on a
bad slot for either), delegate `condvar.wait(mutex)`; no registry state
changes in this file. -/
def sys_condvar_wait (st : PState) (condvar_id mutex_id : Nat) : Option (Int × PState) :=
  match slotGet st.condvar_list condvar_id, slotGet st.mutex_list mutex_id with
  | some _, some _ => some (0, st)
  | _, _ => none

/-- `sys_enable_deadlock_detect(_enabled)`: 0 disables, 1 enables (both
returning 0); any other value returns -1 and changes nothing. -/
def sys_enable_deadlock_detect (st : PState) (enabled : Nat) : Int × PState :=
  match enabled with
  | 0 => (0, { st with deadlock_det_enabled := false })
  | 1 => (0, { st with deadlock_det_enabled := true })
  | _ => (-1, st)

/-- Reference walk written from the spec's section 4.3 steps, to be compared
with the source-derived `mutexWalk`: start with `visited = {t0}` and
`cursor = m0`; if `mutexHolder[cursor]` is absent stop with no deadlock; if
the holder is already visited report deadlock; otherwise add the holder to
`visited` and, if it is waiting on a mutex, move the cursor there and repeat,
else stop with no deadlock.  Fuel as in `mutexWalk`. -/
def specMutexWalk (mutexHolder mutexWaiting : List (Option Nat)) :
    Nat → List Nat → Nat → Option Bool
  | 0, _, _ => none
  | fuel + 1, visited, cursor =>
    match mutexHolder.getD cursor none with
    | none => some false
    | some holder =>
      if holder ∈ visited then some true
      else
        match mutexWaiting.getD holder none with
        | some next => specMutexWalk mutexHolder mutexWaiting fuel (holder :: visited) next
        | none => some false

/-- Reference pass written from the spec's section 4.4 step 3, to be compared
with the source-derived `passStep`: for each thread of `unfinished` in order,
skip it when its pending request names a semaphore whose `work` count is 0,
otherwise mark it finishable and add its entire held-units vector into
`work`. -/
def specSemPass (semWaiting : List (Option Nat)) (semHeld : List (List Nat)) :
    List Nat → List Nat → List Nat × List Nat
  | [], work => ([], work)
  | t2 :: rest, work =>
    let skip : Bool :=
      match semWaiting.getD t2 none with
      | some s => work.getD s 0 == 0
      | none => false
    if skip then specSemPass semWaiting semHeld rest work
    else
      let work1 := addAlloc work (semHeld.getD t2 [])
      let res := specSemPass semWaiting semHeld rest work1
      (t2 :: res.1, res.2)

/-- Reference fixpoint written from the spec's section 4.4 steps 4-5:
repeat passes until a pass finishes no additional thread or `unfinished` is
empty; report deadlock (`some true`) exactly when `unfinished` is nonempty at
that fixpoint. -/
def specSemSafety (semWaiting : List (Option Nat)) (semHeld : List (List Nat)) :
    Nat → List Nat → List Nat → Option Bool
  | _, _, [] => some false
  | 0, _, _ :: _ => none
  | fuel + 1, work, t2 :: rest =>
    let res := specSemPass semWaiting semHeld (t2 :: rest) work
    if res.1.isEmpty then some true
    else specSemSafety semWaiting semHeld fuel res.2
      ((t2 :: rest).filter (fun x => !res.1.contains x))

/-- Units of semaphore `s` held across all threads: `Σ_t sem_alloc[t][s]`. -/
def heldSum (st : PState) (s : Nat) : Nat :=
  (st.sem_alloc.map (fun row => row.getD s 0)).sum

/-- Total units of semaphore `s` accounted for by the ledger:
`sem_avail[s] + Σ_t sem_alloc[t][s]`. -/
def semSum (st : PState) (s : Nat) : Nat :=
  st.sem_avail.getD s 0 + heldSum st s

/-- Structural well-formedness maintained by the source: `sem_avail` and the
slot table have the same length (both are set/pushed together), and every
thread's `sem_alloc` row has one entry per semaphore slot (rows are extended
whenever the slot table is). -/
def WF (st : PState) : Prop :=
  st.sem_avail.length = st.semaphore_list.length ∧
    ∀ row ∈ st.sem_alloc, row.length = st.semaphore_list.length

/-- Semaphore conservation: for every allocated semaphore slot, the available
units plus all held units equal the `res_count` the slot was created with. -/
def ConsInv (st : PState) : Prop :=
  ∀ s c, st.semaphore_list.getD s none = some c → semSum st s = c

/-- One completed dispatcher operation at a quiescent point, relating the
process state before and after.  Panic and fuel-exhaustion outcomes are not
steps; a `granted` outcome packages the delegation to the external primitive
together with its post-return ledger update.
Modelled from the spec (the primitives and thread bookkeeping are outside
`src/`): `semUp` carries the spec's caller precondition that the calling
thread's held count is nonzero (section 4.2); `semDownGranted` carries the
external semaphore's grant condition that a unit is available at the
quiescent grant point, and the existence of the caller's ledger row
(sections 3 and 4.4). -/
inductive QStep : PState → PState → Prop where
  | enableDet (st : PState) (e : Nat) :
      QStep st (sys_enable_deadlock_detect st e).2
  | mutexCreate (st : PState) (b : Bool) :
      QStep st (sys_mutex_create st b).2
  | mutexLockGranted (st st2 : PState) (tid mid : Nat) :
      sys_mutex_lock st tid mid = .granted st2 → QStep st st2
  | mutexLockDeadlock (st st2 : PState) (tid mid : Nat) :
      sys_mutex_lock st tid mid = .deadlock st2 → QStep st st2
  | mutexUnlock (st st2 : PState) (mid : Nat) (r : Int) :
      sys_mutex_unlock st mid = some (r, st2) → QStep st st2
  | semCreate (st : PState) (c : Nat) :
      QStep st (sys_semaphore_create st c).2
  | semUp (st st2 : PState) (tid sid : Nat) (r : Int)
      (hheld : 0 < (st.sem_alloc.getD tid []).getD sid 0) :
      sys_semaphore_up st tid sid = some (r, st2) → QStep st st2
  | semDownGranted (st st2 : PState) (tid sid : Nat)
      (havail : 0 < st.sem_avail.getD sid 0)
      (htid : tid < st.sem_alloc.length) :
      sys_semaphore_down st tid sid = .granted st2 → QStep st st2
  | semDownDeadlock (st st2 : PState) (tid sid : Nat) :
      sys_semaphore_down st tid sid = .deadlock st2 → QStep st st2
  | condCreate (st : PState) :
      QStep st (sys_condvar_create st).2
  | condSignal (st st2 : PState) (cid : Nat) (r : Int) :
      sys_condvar_signal st cid = some (r, st2) → QStep st st2
  | condWait (st st2 : PState) (cid mid : Nat) (r : Int) :
      sys_condvar_wait st cid mid = some (r, st2) → QStep st st2

/-- Process state with every table empty (no threads, no resources). -/
def emptySt : PState :=
  { mutex_list := [], mutex_alloc := [], mutex_request := [],
    semaphore_list := [], sem_avail := [], sem_alloc := [], sem_request := [],
    condvar_list := [], deadlock_det_enabled := false }

/-- One thread (tid 0) that already holds mutex 0, detection enabled. -/
def relockSt : PState :=
  { mutex_list := [some .spin], mutex_alloc := [some 0], mutex_request := [none],
    semaphore_list := [], sem_avail := [], sem_alloc := [[]], sem_request := [none],
    condvar_list := [], deadlock_det_enabled := true }

/-- One thread (tid 0), one capacity-0 semaphore, detection enabled; the
thread's (all-zero) row is non-empty so the detector considers it. -/
def zeroSemSt : PState :=
  { mutex_list := [], mutex_alloc := [], mutex_request := [none],
    semaphore_list := [some 0], sem_avail := [0], sem_alloc := [[0]], sem_request := [none],
    condvar_list := [], deadlock_det_enabled := true }

/-- Two threads, two mutexes: thread 0 holds mutex 0, thread 1 holds mutex 1
and is waiting for mutex 0; detection enabled. -/
def crossSt : PState :=
  { mutex_list := [some .blocking, some .blocking], mutex_alloc := [some 0, some 1],
    mutex_request := [none, some 0],
    semaphore_list := [], sem_avail := [], sem_alloc := [[], []],
    sem_request := [none, none], condvar_list := [], deadlock_det_enabled := true }

/-- Two threads, two capacity-1 semaphores in a circular wait: thread 0 holds
one unit of semaphore 0 and awaits semaphore 1; thread 1 holds one unit of
semaphore 1; detection enabled. -/
def semCrossSt : PState :=
  { mutex_list := [], mutex_alloc := [], mutex_request := [],
    semaphore_list := [some 1, some 1], sem_avail := [0, 0],
    sem_alloc := [[1, 0], [0, 1]], sem_request := [some 1, none],
    condvar_list := [], deadlock_det_enabled := true }

/-- One thread, one free mutex and one fresh capacity-2 semaphore. -/
def simpleSt : PState :=
  { mutex_list := [some .spin], mutex_alloc := [none], mutex_request := [none],
    semaphore_list := [some 2], sem_avail := [2], sem_alloc := [[0]],
    sem_request := [none], condvar_list := [some ()],
    deadlock_det_enabled := true }

/-- One thread (tid 0) and no resources yet: the ledger rows of the thread
exist and are empty. -/
def oneThreadSt : PState :=
  { mutex_list := [], mutex_alloc := [], mutex_request := [none],
    semaphore_list := [], sem_avail := [], sem_alloc := [[]], sem_request := [none],
    condvar_list := [], deadlock_det_enabled := false }

/-! List helper lemmas used throughout. -/

theorem getD_set_self (l : List α) (i : Nat) (a d : α) (h : i < l.length) :
    (l.set i a).getD i d = a := by
  simp [List.getD_eq_getElem?_getD, List.getElem?_set_self h]

theorem getD_set_ne (l : List α) (i j : Nat) (a d : α) (h : i ≠ j) :
    (l.set i a).getD j d = l.getD j d := by
  simp [List.getD_eq_getElem?_getD, List.getElem?_set_ne h]

theorem getD_append_len (l : List α) (x d : α) : (l ++ [x]).getD l.length d = x := by
  induction l with
  | nil => rfl
  | cons a as ih => simp [ih]

theorem getD_append_ne (l : List α) (x d : α) (j : Nat) (h : j ≠ l.length) :
    (l ++ [x]).getD j d = l.getD j d := by
  induction l generalizing j with
  | nil =>
    cases j with
    | zero => exact absurd rfl h
    | succ k => simp [List.getD]
  | cons a as ih =>
    cases j with
    | zero => rfl
    | succ k =>
      simp only [List.length_cons] at h
      simpa using ih k (by omega)

theorem getD_mem (l : List α) (i : Nat) (d : α) (h : i < l.length) : l.getD i d ∈ l := by
  rw [List.getD_eq_getElem?_getD, List.getElem?_eq_getElem h]
  exact List.getElem_mem h

theorem map_sum_set_getD (f : α → Nat) (l : List α) (i : Nat) (x d : α) (h : i < l.length) :
    ((l.set i x).map f).sum + f (l.getD i d) = (l.map f).sum + f x := by
  induction l generalizing i with
  | nil => simp at h
  | cons a as ih =>
    cases i with
    | zero => simp [List.set]; omega
    | succ j =>
      simp only [List.length_cons] at h
      have := ih j (by omega)
      simp only [List.set, List.map_cons, List.sum_cons, List.getD_cons_succ]
      omega

/-! C6: the detection toggle. -/

/-- C6: `sys_enable_deadlock_detect` accepts exactly the two sentinel values:
0 disables detection and 1 enables it, each returning 0; every other argument
returns the invalid-argument error -1 and leaves the whole state — in
particular `deadlock_det_enabled` — unchanged. -/
theorem enable_detect_sentinels (st : PState) (e : Nat) :
    sys_enable_deadlock_detect st 0 = (0, { st with deadlock_det_enabled := false }) ∧
    sys_enable_deadlock_detect st 1 = (0, { st with deadlock_det_enabled := true }) ∧
    (2 ≤ e → sys_enable_deadlock_detect st e = (-1, st)) := by
  refine ⟨rfl, rfl, fun h => ?_⟩
  match e, h with
  | n + 2, _ => rfl

/-- Witness for C6 at the empty state and the invalid argument 7. -/
theorem enable_detect_sentinels_w :
    sys_enable_deadlock_detect emptySt 0 = (0, { emptySt with deadlock_det_enabled := false }) ∧
    sys_enable_deadlock_detect emptySt 1 = (0, { emptySt with deadlock_det_enabled := true }) ∧
    sys_enable_deadlock_detect emptySt 7 = (-1, emptySt) :=
  ⟨(enable_detect_sentinels emptySt 7).1, (enable_detect_sentinels emptySt 7).2.1,
    (enable_detect_sentinels emptySt 7).2.2 (by decide)⟩

/-! C10: unconditional unlock. -/

/-- C10: for every state whose `mutex_id` slot holds an allocated mutex,
`sys_mutex_unlock` unconditionally sets `mutex_alloc[mutex_id]` to `None` and
returns 0.  The source never reads the calling thread's id (the definition
takes none), so no holder check occurs, and the theorem applies equally when
`mutex_alloc[mutex_id]` was already `None`. -/
theorem mutex_unlock_unconditional (st : PState) (mid : Nat) (k : MutexKind)
    (h : slotGet st.mutex_list mid = some k) :
    sys_mutex_unlock st mid =
      some (0, { st with mutex_alloc := st.mutex_alloc.set mid none }) := by
  simp [sys_mutex_unlock, h]

/-- Witness for C10: thread 1 is the recorded holder of mutex 1 in `crossSt`,
yet an unlock of mutex 1 (issued by no particular thread) clears the holder
and returns 0. -/
theorem mutex_unlock_unconditional_w :
    sys_mutex_unlock crossSt 1 =
      some (0, { crossSt with mutex_alloc := crossSt.mutex_alloc.set 1 none }) :=
  mutex_unlock_unconditional crossSt 1 .blocking (by decide)

/-! C2: the initial unfinished set of the semaphore detector. -/

/-- C2 counterexample: one semaphore slot, one thread holding zero units
(row `[0]`).  The thread is in the initial unfinished set even though no
entry of its held-units row is nonzero, refuting the claim that threads
holding nothing are excluded up front. -/
theorem init_unfinished_zero_row_cex :
    0 ∈ initUnfinished [[0]] ∧ ¬ ∃ x ∈ ([0] : List Nat), x ≠ 0 := by
  decide

/-- C2 amended: the initial unfinished set contains exactly the threads whose
held-units row is a non-empty vector (the source tests `!t_alloc.is_empty()`),
i.e. once any semaphore slot exists every thread is included, regardless of
whether it holds any units. -/
theorem init_unfinished_members (sem_alloc : List (List Nat)) (t : Nat) :
    t ∈ initUnfinished sem_alloc ↔ t < sem_alloc.length ∧ sem_alloc.getD t [] ≠ [] := by
  simp [initUnfinished, List.mem_filter, List.mem_range, List.isEmpty_iff]

/-! C8: invalid resource ids. -/

/-- C8 counterexample: with no mutex slots allocated, a lock of mutex id 0
panics (`.unwrap()` of an out-of-range index) instead of returning an
invalid-handle error to the caller. -/
theorem invalid_handle_no_check_cex : sys_mutex_lock emptySt 0 0 = .panic := rfl

/-- C8 amended: accessing an id that is out of range of its slot table or
whose slot is currently `None` is not checked: every dispatcher operation
taking a resource id indexes the table and unwraps, which panics; no
invalid-handle error value exists in the source. -/
theorem invalid_handle_panics (st : PState) (tid i j : Nat) :
    (slotGet st.mutex_list i = none →
      sys_mutex_lock st tid i = .panic ∧ sys_mutex_unlock st i = none ∧
        sys_condvar_wait st j i = none) ∧
    (slotGet st.semaphore_list i = none →
      sys_semaphore_down st tid i = .panic ∧ sys_semaphore_up st tid i = none) ∧
    (slotGet st.condvar_list i = none →
      sys_condvar_signal st i = none ∧ sys_condvar_wait st i j = none) := by
  refine ⟨fun hmu => ⟨?_, ?_, ?_⟩, fun hse => ⟨?_, ?_⟩, fun hcv => ⟨?_, ?_⟩⟩
  · simp [sys_mutex_lock, hmu]
  · simp [sys_mutex_unlock, hmu]
  · cases hc : slotGet st.condvar_list j <;> simp [sys_condvar_wait, hmu, hc]
  · simp [sys_semaphore_down, hse]
  · simp [sys_semaphore_up, hse]
  · simp [sys_condvar_signal, hcv]
  · cases hm : slotGet st.mutex_list j <;> simp [sys_condvar_wait, hcv, hm]

/-- Witness for C8 at the empty state (every table empty, so id 0 is out of
range everywhere). -/
theorem invalid_handle_panics_w :
    (sys_mutex_unlock emptySt 0 = none ∧ sys_condvar_wait emptySt 1 0 = none) ∧
    (sys_semaphore_down emptySt 0 0 = .panic ∧ sys_semaphore_up emptySt 0 0 = none) ∧
    (sys_condvar_signal emptySt 0 = none ∧ sys_condvar_wait emptySt 0 1 = none) :=
  ⟨⟨((invalid_handle_panics emptySt 0 0 1).1 (by decide)).2.1,
    ((invalid_handle_panics emptySt 0 0 1).1 (by decide)).2.2⟩,
   (invalid_handle_panics emptySt 0 0 1).2.1 (by decide),
   (invalid_handle_panics emptySt 0 0 1).2.2 (by decide)⟩

/-! Outcome characterizations of `sys_mutex_lock` and `sys_semaphore_down`
(shared helper lemmas). -/

/-- A lock rejected by the detector returns with exactly one ledger change:
`mutex_request[tid]` set to the requested mutex (the source never clears it
on this path). -/
theorem lock_deadlock_state (st st2 : PState) (tid mid : Nat)
    (h : sys_mutex_lock st tid mid = .deadlock st2) :
    st2 = { st with mutex_request := st.mutex_request.set tid (some mid) } := by
  unfold sys_mutex_lock at h
  split at h
  · exact absurd h (by simp)
  · dsimp only at h
    split at h
    · split at h
      · exact absurd h (by simp)
      · injection h with h2
        exact h2.symm
      · exact absurd h (by simp)
    · exact absurd h (by simp)

/-- A down rejected by the detector returns with exactly one ledger change:
`sem_request[tid]` set to the requested semaphore (never cleared on this
path). -/
theorem down_deadlock_state (st st2 : PState) (tid sid : Nat)
    (h : sys_semaphore_down st tid sid = .deadlock st2) :
    st2 = { st with sem_request := st.sem_request.set tid (some sid) } := by
  unfold sys_semaphore_down at h
  split at h
  · exact absurd h (by simp)
  · dsimp only at h
    split at h
    · split at h
      · exact absurd h (by simp)
      · split at h
        · exact absurd h (by simp)
        · injection h with h2
          exact h2.symm
    · exact absurd h (by simp)

/-- A granted lock ends with `mutex_alloc[mid] = Some tid` and the pending
request cleared; no other field changes. -/
theorem lock_granted_state (st st2 : PState) (tid mid : Nat)
    (h : sys_mutex_lock st tid mid = .granted st2) :
    st2 = { st with
      mutex_request := (st.mutex_request.set tid (some mid)).set tid none,
      mutex_alloc := st.mutex_alloc.set mid (some tid) } := by
  unfold sys_mutex_lock at h
  split at h
  · exact absurd h (by simp)
  · dsimp only at h
    split at h
    · split at h
      · exact absurd h (by simp)
      · exact absurd h (by simp)
      · injection h with h2
        exact h2.symm
    · injection h with h2
      exact h2.symm

/-- A granted down ends with the pending request cleared, one unit moved from
`sem_avail[sid]` to the caller's held count, and nothing else changed; it
also certifies that the slot was allocated. -/
theorem down_granted_state (st st2 : PState) (tid sid : Nat)
    (h : sys_semaphore_down st tid sid = .granted st2) :
    (∃ c, slotGet st.semaphore_list sid = some c) ∧
    st2 = { st with
      sem_request := (st.sem_request.set tid (some sid)).set tid none,
      sem_avail := st.sem_avail.set sid (st.sem_avail.getD sid 0 - 1),
      sem_alloc := st.sem_alloc.set tid
        ((st.sem_alloc.getD tid []).set sid
          ((st.sem_alloc.getD tid []).getD sid 0 + 1)) } := by
  unfold sys_semaphore_down at h
  split at h
  · exact absurd h (by simp)
  · refine ⟨⟨_, by assumption⟩, ?_⟩
    dsimp only at h
    split at h
    · split at h
      · exact absurd h (by simp)
      · split at h
        · injection h with h2
          exact h2.symm
        · exact absurd h (by simp)
    · injection h with h2
      exact h2.symm

/-- A completed up moves one unit from the caller's held count to
`sem_avail[sid]`, returns 0, and certifies an allocated slot. -/
theorem up_state (st st2 : PState) (tid sid : Nat) (r : Int)
    (h : sys_semaphore_up st tid sid = some (r, st2)) :
    (∃ c, slotGet st.semaphore_list sid = some c) ∧ r = 0 ∧
    st2 = { st with
      sem_avail := st.sem_avail.set sid (st.sem_avail.getD sid 0 + 1),
      sem_alloc := st.sem_alloc.set tid
        ((st.sem_alloc.getD tid []).set sid
          ((st.sem_alloc.getD tid []).getD sid 0 - 1)) } := by
  unfold sys_semaphore_up at h
  split at h
  · exact absurd h (by simp)
  · refine ⟨⟨_, by assumption⟩, ?_, ?_⟩ <;>
      [skip; skip] <;> injection h with h2
    · exact congrArg Prod.fst h2.symm
    · exact congrArg Prod.snd h2.symm

/-! C1: state on a detection rejection. -/

/-- C1 counterexample: thread 0, which already holds mutex 0 in `relockSt`,
re-locks it with detection enabled; the call is rejected with the deadlock
error, yet the returned state still records `mutex_request[0] = some 0`: the
just-recorded pending request entry is not cleared, contradicting the
claim. -/
theorem deadlock_reject_clears_request_cex :
    sys_mutex_lock relockSt 0 0 = .deadlock { relockSt with mutex_request := [some 0] } ∧
    ({ relockSt with mutex_request := [some 0] } : PState).mutex_request.getD 0 none ≠ none := by
  decide

/-- C1 amended: when a lock/down request is rejected with the deadlock error,
the caller is not blocked (the rejection happens before any delegation to the
blocking primitive, which only the `granted` outcome models) and the only
ledger mutation relative to the pre-call state is the just-recorded pending
request entry, which remains set — the source does not clear
`mutex_request[t0]` / `sem_request[t0]` on the rejection path; holders, held
counts, available counts and all other waiting entries are untouched. -/
theorem deadlock_reject_keeps_request (st st2 : PState) (tid rid : Nat) :
    (sys_mutex_lock st tid rid = .deadlock st2 →
      st2 = { st with mutex_request := st.mutex_request.set tid (some rid) }) ∧
    (sys_semaphore_down st tid rid = .deadlock st2 →
      st2 = { st with sem_request := st.sem_request.set tid (some rid) }) :=
  ⟨lock_deadlock_state st st2 tid rid, down_deadlock_state st st2 tid rid⟩

/-- Witness for C1 at the self-deadlock states `relockSt` (mutex) and
`zeroSemSt` (semaphore). -/
theorem deadlock_reject_keeps_request_w :
    ({ relockSt with mutex_request := [some 0] } : PState) =
      { relockSt with mutex_request := relockSt.mutex_request.set 0 (some 0) } ∧
    ({ zeroSemSt with sem_request := [some 0] } : PState) =
      { zeroSemSt with sem_request := zeroSemSt.sem_request.set 0 (some 0) } :=
  ⟨(deadlock_reject_keeps_request relockSt { relockSt with mutex_request := [some 0] } 0 0).1
      (by decide),
   (deadlock_reject_keeps_request zeroSemSt { zeroSemSt with sem_request := [some 0] } 0 0).2
      (by decide)⟩

/-! C7: slot allocation policy of the three create operations. -/

/-- `findFree` characterization: a hit is the smallest index whose slot is
`None`. -/
theorem findFree_eq_some_iff (l : List (Option α)) (i : Nat) :
    findFree l = some i ↔ l[i]? = some none ∧ ∀ j < i, l[j]? ≠ some none := by
  induction l generalizing i with
  | nil => simp [findFree]
  | cons hd tl ih =>
    cases hd with
    | none =>
      cases i with
      | zero => simp [findFree]
      | succ k =>
        simp only [findFree]
        constructor
        · intro h; exact absurd h (by simp)
        · rintro ⟨-, hall⟩
          exact ((hall 0 (Nat.succ_pos k)) (by simp)).elim
    | some x =>
      cases i with
      | zero =>
        simp [findFree]
      | succ k =>
        simp only [findFree, Option.map_eq_some']
        constructor
        · rintro ⟨k2, hk2, heq⟩
          have hk : k2 = k := by omega
          rw [hk] at hk2
          obtain ⟨h1, h2⟩ := (ih k).1 hk2
          refine ⟨by simpa using h1, ?_⟩
          intro j hj
          cases j with
          | zero => simp
          | succ j2 => simpa using h2 j2 (by omega)
        · rintro ⟨h1, h2⟩
          refine ⟨k, (ih k).2 ⟨by simpa using h1, ?_⟩, rfl⟩
          intro j hj
          simpa using h2 (j + 1) (by omega)

/-- `findFree` misses exactly when every slot is occupied. -/
theorem findFree_eq_none_iff (l : List (Option α)) :
    findFree l = none ↔ ∀ o ∈ l, o ≠ none := by
  induction l with
  | nil => simp [findFree]
  | cons hd tl ih =>
    cases hd with
    | none => simp [findFree]
    | some x => simp [findFree, ih]

/-- C7: each create operation (`sys_mutex_create`, `sys_semaphore_create`,
`sys_condvar_create`) returns the smallest slot index currently holding
`None`, installing the new handle there; only when no slot is free does it
append a new slot and return the new last index; and in both cases every
other slot keeps its previous content, so ids are never renumbered. -/
theorem create_reuses_smallest_free_slot (st : PState) (b : Bool) (c i : Nat) :
    ((findFree st.mutex_list = some i →
        (sys_mutex_create st b).1 = (i : Int) ∧
        (sys_mutex_create st b).2.mutex_list =
          st.mutex_list.set i (if !b then some .spin else some .blocking) ∧
        st.mutex_list[i]? = some none ∧ (∀ j < i, st.mutex_list[j]? ≠ some none) ∧
        ∀ j ≠ i, (sys_mutex_create st b).2.mutex_list[j]? = st.mutex_list[j]?) ∧
      (findFree st.mutex_list = none →
        (sys_mutex_create st b).1 = (st.mutex_list.length : Int) ∧
        (sys_mutex_create st b).2.mutex_list =
          st.mutex_list ++ [if !b then some .spin else some .blocking] ∧
        (∀ o ∈ st.mutex_list, o ≠ none) ∧
        ∀ j < st.mutex_list.length,
          (sys_mutex_create st b).2.mutex_list[j]? = st.mutex_list[j]?)) ∧
    ((findFree st.semaphore_list = some i →
        (sys_semaphore_create st c).1 = (i : Int) ∧
        (sys_semaphore_create st c).2.semaphore_list = st.semaphore_list.set i (some c) ∧
        st.semaphore_list[i]? = some none ∧ (∀ j < i, st.semaphore_list[j]? ≠ some none) ∧
        ∀ j ≠ i, (sys_semaphore_create st c).2.semaphore_list[j]? = st.semaphore_list[j]?) ∧
      (findFree st.semaphore_list = none →
        (sys_semaphore_create st c).1 = (st.semaphore_list.length : Int) ∧
        (sys_semaphore_create st c).2.semaphore_list = st.semaphore_list ++ [some c] ∧
        (∀ o ∈ st.semaphore_list, o ≠ none) ∧
        ∀ j < st.semaphore_list.length,
          (sys_semaphore_create st c).2.semaphore_list[j]? = st.semaphore_list[j]?)) ∧
    ((findFree st.condvar_list = some i →
        (sys_condvar_create st).1 = (i : Int) ∧
        (sys_condvar_create st).2.condvar_list = st.condvar_list.set i (some ()) ∧
        st.condvar_list[i]? = some none ∧ (∀ j < i, st.condvar_list[j]? ≠ some none) ∧
        ∀ j ≠ i, (sys_condvar_create st).2.condvar_list[j]? = st.condvar_list[j]?) ∧
      (findFree st.condvar_list = none →
        (sys_condvar_create st).1 = (st.condvar_list.length : Int) ∧
        (sys_condvar_create st).2.condvar_list = st.condvar_list ++ [some ()] ∧
        (∀ o ∈ st.condvar_list, o ≠ none) ∧
        ∀ j < st.condvar_list.length,
          (sys_condvar_create st).2.condvar_list[j]? = st.condvar_list[j]?)) := by
  refine ⟨⟨fun hfree => ?_, fun hfull => ?_⟩,
    ⟨fun hfree => ?_, fun hfull => ?_⟩, ⟨fun hfree => ?_, fun hfull => ?_⟩⟩
  · obtain ⟨h1, h2⟩ := (findFree_eq_some_iff _ _).1 hfree
    refine ⟨by simp [sys_mutex_create, hfree], by simp [sys_mutex_create, hfree], h1, h2, ?_⟩
    intro j hj
    simp [sys_mutex_create, hfree, List.getElem?_set_ne (Ne.symm hj)]
  · refine ⟨by simp [sys_mutex_create, hfull], by simp [sys_mutex_create, hfull],
      (findFree_eq_none_iff _).1 hfull, ?_⟩
    intro j hj
    simp [sys_mutex_create, hfull, List.getElem?_append_left hj]
  · obtain ⟨h1, h2⟩ := (findFree_eq_some_iff _ _).1 hfree
    refine ⟨by simp [sys_semaphore_create, hfree],
      by simp [sys_semaphore_create, hfree], h1, h2, ?_⟩
    intro j hj
    simp [sys_semaphore_create, hfree, List.getElem?_set_ne (Ne.symm hj)]
  · refine ⟨by simp [sys_semaphore_create, hfull], by simp [sys_semaphore_create, hfull],
      (findFree_eq_none_iff _).1 hfull, ?_⟩
    intro j hj
    simp [sys_semaphore_create, hfull, List.getElem?_append_left hj]
  · obtain ⟨h1, h2⟩ := (findFree_eq_some_iff _ _).1 hfree
    refine ⟨by simp [sys_condvar_create, hfree], by simp [sys_condvar_create, hfree], h1, h2, ?_⟩
    intro j hj
    simp [sys_condvar_create, hfree, List.getElem?_set_ne (Ne.symm hj)]
  · refine ⟨by simp [sys_condvar_create, hfull], by simp [sys_condvar_create, hfull],
      (findFree_eq_none_iff _).1 hfull, ?_⟩
    intro j hj
    simp [sys_condvar_create, hfull, List.getElem?_append_left hj]

/-- Witness for C7: a mutex create reuses the free middle slot of a
three-slot table, and a semaphore create on the fully occupied table of
`simpleSt` appends. -/
theorem create_reuses_smallest_free_slot_w :
    (sys_mutex_create
        { emptySt with mutex_list := [some .spin, none, none],
                       mutex_alloc := [some 0, none, none] } true).1 = (1 : Int) ∧
    (sys_semaphore_create simpleSt 3).1 = (1 : Int) ∧
    (sys_semaphore_create simpleSt 3).2.semaphore_list = simpleSt.semaphore_list ++ [some 3] :=
  ⟨((create_reuses_smallest_free_slot
      { emptySt with mutex_list := [some .spin, none, none],
                     mutex_alloc := [some 0, none, none] } true 3 1).1.1 (by decide)).1,
   ((create_reuses_smallest_free_slot simpleSt true 3 1).2.1.2 (by decide)).1,
   ((create_reuses_smallest_free_slot simpleSt true 3 1).2.1.2 (by decide)).2.1⟩

/-! C3: the mutex detector walk matches the spec's description. -/

/-- The spec-derived walk and the source-derived walk agree on every input. -/
theorem specMutexWalk_eq_mutexWalk (alloc req : List (Option Nat)) :
    ∀ fuel visited cursor,
      specMutexWalk alloc req fuel visited cursor = mutexWalk alloc req fuel visited cursor := by
  intro fuel
  induction fuel with
  | zero => intro v c; rfl
  | succ n ih =>
    intro v c
    simp only [specMutexWalk, mutexWalk]
    cases alloc.getD c none with
    | none => rfl
    | some t =>
      by_cases h : t ∈ v
      · simp [h]
      · simp only [h, if_neg, ite_false]
        cases req.getD t none with
        | none => rfl
        | some m => exact ih _ _

/-- C3: with detection enabled and a valid slot, `sys_mutex_lock` reports
deadlock exactly when the spec's walk — starting from `visited = {t0}` and
cursor `mutexId` (after the request is recorded), following holder then
awaited mutex — reaches a holder already visited (`some true`); it reports no
deadlock when the walk stops at a holder-less mutex or a non-waiting holder
(`some false`). -/
theorem lock_deadlock_iff_spec_walk (st : PState) (tid mid : Nat) (k : MutexKind)
    (hs : slotGet st.mutex_list mid = some k)
    (hdet : st.deadlock_det_enabled = true) :
    ((sys_mutex_lock st tid mid).isDeadlock = true ↔
      specMutexWalk st.mutex_alloc (st.mutex_request.set tid (some mid))
        (st.mutex_request.length + 1) [tid] mid = some true) := by
  rw [specMutexWalk_eq_mutexWalk]
  simp only [sys_mutex_lock, hs, hdet, if_true, List.length_set]
  cases hw : mutexWalk st.mutex_alloc (st.mutex_request.set tid (some mid))
      (st.mutex_request.length + 1) [tid] mid with
  | none => simp [SysResult.isDeadlock]
  | some b =>
    cases b with
    | true => simp [SysResult.isDeadlock]
    | false => simp [SysResult.isDeadlock]

/-- Witness for C3 at the cross-holding state `crossSt`: thread 0 requesting
mutex 1 closes the cycle, and both sides of the equivalence hold. -/
theorem lock_deadlock_iff_spec_walk_w :
    ((sys_mutex_lock crossSt 0 1).isDeadlock = true ↔
      specMutexWalk crossSt.mutex_alloc (crossSt.mutex_request.set 0 (some 1))
        (crossSt.mutex_request.length + 1) [0] 1 = some true) :=
  lock_deadlock_iff_spec_walk crossSt 0 1 .blocking (by decide) (by decide)

/-! C4: the semaphore detector pass/fixpoint matches the spec's description. -/

/-- The spec-derived pass and the source-derived pass agree on every input. -/
theorem specSemPass_eq_passStep (req : List (Option Nat)) (alloc : List (List Nat)) :
    ∀ pending work,
      specSemPass req alloc pending work = passStep req alloc pending work := by
  intro pending
  induction pending with
  | nil => intro w; rfl
  | cons t rest ih =>
    intro w
    simp only [specSemPass, passStep, ih]

/-- The spec-derived fixpoint returns the deadlock verdict of the
source-derived loop: deadlock exactly when the final pending set is
nonempty. -/
theorem specSemSafety_eq_bankerLoop (req : List (Option Nat)) (alloc : List (List Nat)) :
    ∀ fuel work pending,
      specSemSafety req alloc fuel work pending =
        (bankerLoop req alloc fuel work pending).map (fun p => !p.isEmpty) := by
  intro fuel
  induction fuel with
  | zero =>
    intro work pending
    cases pending with
    | nil => rfl
    | cons t rest => rfl
  | succ n ih =>
    intro work pending
    cases pending with
    | nil => rfl
    | cons t rest =>
      simp only [specSemSafety, bankerLoop, specSemPass_eq_passStep]
      by_cases he : (passStep req alloc (t :: rest) work).1.isEmpty
      · simp [he]
      · simp only [he, ite_false, Bool.false_eq_true, if_false]
        exact ih _ _

/-- C4: with detection enabled and a valid slot, `sys_semaphore_down` rejects
the request as deadlock exactly when the spec's fixpoint — each pass
finishing precisely the threads with no pending request or a nonzero `work`
count for their requested semaphore, releasing each finished thread's entire
held-units vector into `work` and removing it, repeated until a pass finishes
no thread or the set empties — ends with a nonempty unfinished set. -/
theorem down_deadlock_iff_spec_safety (st : PState) (tid sid c : Nat)
    (hs : slotGet st.semaphore_list sid = some c)
    (hdet : st.deadlock_det_enabled = true) :
    ((sys_semaphore_down st tid sid).isDeadlock = true ↔
      specSemSafety (st.sem_request.set tid (some sid)) st.sem_alloc
        (initUnfinished st.sem_alloc).length st.sem_avail
        (initUnfinished st.sem_alloc) = some true) := by
  rw [specSemSafety_eq_bankerLoop]
  simp only [sys_semaphore_down, hs, hdet, if_true]
  cases hb : bankerLoop (st.sem_request.set tid (some sid)) st.sem_alloc
      (initUnfinished st.sem_alloc).length st.sem_avail (initUnfinished st.sem_alloc) with
  | none => simp [SysResult.isDeadlock]
  | some p =>
    by_cases hp : p.isEmpty
    · simp [SysResult.isDeadlock, hp]
    · simp [SysResult.isDeadlock, hp]

/-- Witness for C4 at the circular-wait state `semCrossSt`: thread 1's down
of semaphore 0 is rejected, and the spec fixpoint agrees. -/
theorem down_deadlock_iff_spec_safety_w :
    ((sys_semaphore_down semCrossSt 1 0).isDeadlock = true ↔
      specSemSafety (semCrossSt.sem_request.set 1 (some 0)) semCrossSt.sem_alloc
        (initUnfinished semCrossSt.sem_alloc).length semCrossSt.sem_avail
        (initUnfinished semCrossSt.sem_alloc) = some true) :=
  down_deadlock_iff_spec_safety semCrossSt 1 0 1 (by decide) (by decide)

/-! C9: termination of both detectors within the stated bounds. -/

/-- Every thread finished by a pass was among the pending threads. -/
theorem passStep_finished_subset (req : List (Option Nat)) (alloc : List (List Nat)) :
    ∀ pending work t, t ∈ (passStep req alloc pending work).1 → t ∈ pending := by
  intro pending
  induction pending with
  | nil => intro w t h; simp [passStep] at h
  | cons t0 rest ih =>
    intro w t h
    simp only [passStep] at h
    split at h
    · exact List.mem_cons_of_mem t0 (ih w t h)
    · rcases List.mem_cons.1 h with h1 | h1
      · exact h1 ▸ List.mem_cons_self t0 rest
      · exact List.mem_cons_of_mem t0 (ih _ t h1)

/-- Removing an actually-present element through `filter` strictly shrinks a
list. -/
theorem length_filter_lt (p : α → Bool) (l : List α) (a : α)
    (ha : a ∈ l) (hpa : p a = false) : (l.filter p).length < l.length := by
  induction l with
  | nil => simp at ha
  | cons b rest ih =>
    rcases List.mem_cons.1 ha with h1 | h1
    · subst h1
      have := List.length_filter_le p rest
      simp only [List.filter_cons, hpa, Bool.false_eq_true, if_false, List.length_cons]
      omega
    · cases hpb : p b with
      | false =>
        have := List.length_filter_le p rest
        simp only [List.filter_cons, hpb, Bool.false_eq_true, if_false, List.length_cons]
        omega
      | true =>
        have := ih h1
        simp only [List.filter_cons, hpb, if_true, List.length_cons]
        omega

/-- Fuel sufficiency for the semaphore detector loop: the size of the initial
pending set bounds the number of passes, because every continued pass removes
at least one thread. -/
theorem bankerLoop_isSome (req : List (Option Nat)) (alloc : List (List Nat)) :
    ∀ fuel pending work, pending.length ≤ fuel →
      (bankerLoop req alloc fuel work pending).isSome := by
  intro fuel
  induction fuel with
  | zero =>
    intro pending work h
    cases pending with
    | nil => simp [bankerLoop]
    | cons t rest => simp at h
  | succ n ih =>
    intro pending work h
    cases pending with
    | nil => simp [bankerLoop]
    | cons t rest =>
      simp only [bankerLoop]
      by_cases he : (passStep req alloc (t :: rest) work).1.isEmpty
      · simp [he]
      · simp only [he, ite_false, Bool.false_eq_true, if_false]
        apply ih
        have hne : (passStep req alloc (t :: rest) work).1 ≠ [] := by
          simpa [List.isEmpty_iff] using he
        obtain ⟨y, hy⟩ := List.exists_mem_of_ne_nil _ hne
        have hyp : y ∈ t :: rest := passStep_finished_subset req alloc _ _ y hy
        have hlt : ((t :: rest).filter
            (fun x => !(passStep req alloc (t :: rest) work).1.contains x)).length <
            (t :: rest).length := by
          apply length_filter_lt _ _ y hyp
          simp [List.contains, hy]
        simp only [List.length_cons] at hlt h
        omega

/-- Fuel sufficiency for the wait-for walk: `visited` is duplicate-free and
drawn from the `n` thread ids, and grows by one on every continued step, so
`n + 1` total steps always suffice. -/
theorem mutexWalk_isSome_aux (alloc req : List (Option Nat)) (n : Nat)
    (hal : ∀ m t, alloc.getD m none = some t → t < n) :
    ∀ fuel visited mid, visited.Nodup → (∀ t ∈ visited, t < n) →
      n + 1 ≤ fuel + visited.length →
      (mutexWalk alloc req fuel visited mid).isSome := by
  intro fuel
  induction fuel with
  | zero =>
    intro visited mid hnd hlt hle
    exfalso
    have h1 : visited.toFinset.card = visited.length := List.toFinset_card_of_nodup hnd
    have h2 : visited.toFinset ⊆ Finset.range n := by
      intro x hx
      exact Finset.mem_range.2 (hlt x (List.mem_toFinset.1 hx))
    have h3 := Finset.card_le_card h2
    rw [h1, Finset.card_range] at h3
    omega
  | succ m ih =>
    intro visited mid hnd hlt hle
    simp only [mutexWalk]
    cases ha : alloc.getD mid none with
    | none => simp
    | some t2 =>
      by_cases hv : t2 ∈ visited
      · simp [hv]
      · simp only [hv, ite_false, if_neg]
        cases req.getD t2 none with
        | none => simp
        | some m2 =>
          apply ih (t2 :: visited) m2 (List.nodup_cons.2 ⟨hv, hnd⟩)
          · intro x hx
            rcases List.mem_cons.1 hx with h1 | h1
            · exact h1 ▸ hal mid t2 ha
            · exact hlt x h1
          · simp only [List.length_cons]
            omega

/-- C9: both detector computations terminate within the code's bounds.  The
wait-for chain walk visits each thread at most once — `visited` grows by a
fresh thread id on every continued iteration and stays inside the `n` thread
ids, so fuel `n + 1` never runs out; the semaphore safety check performs at
most one pass per member of the initial unfinished set, because every pass
either removes at least one thread from it or finishes no thread and stops,
so fuel `pending.length` never runs out. -/
theorem detectors_terminate (alloc req sreq : List (Option Nat))
    (salloc : List (List Nat)) (n t0 m0 fuel : Nat) (work pending : List Nat) :
    ((∀ m t, alloc.getD m none = some t → t < n) → t0 < n →
      (mutexWalk alloc req (n + 1) [t0] m0).isSome) ∧
    (pending.length ≤ fuel →
      (bankerLoop sreq salloc fuel work pending).isSome) := by
  constructor
  · intro hal ht0
    apply mutexWalk_isSome_aux alloc req n hal (n + 1) [t0] m0 (List.nodup_singleton t0)
    · intro t ht
      rcases List.mem_singleton.1 ht with rfl
      exact ht0
    · simp
  · exact bankerLoop_isSome sreq salloc fuel pending work

/-- Witness for C9: the walk of `crossSt` (2 threads) and the safety check of
`semCrossSt` both complete within their bounds. -/
theorem detectors_terminate_w :
    (mutexWalk crossSt.mutex_alloc (crossSt.mutex_request.set 0 (some 1)) 3 [0] 1).isSome ∧
    (bankerLoop (semCrossSt.sem_request.set 1 (some 0)) semCrossSt.sem_alloc 2
      semCrossSt.sem_avail (initUnfinished semCrossSt.sem_alloc)).isSome :=
  ⟨(detectors_terminate crossSt.mutex_alloc (crossSt.mutex_request.set 0 (some 1))
      (semCrossSt.sem_request.set 1 (some 0)) semCrossSt.sem_alloc 2 0 1 2
      semCrossSt.sem_avail (initUnfinished semCrossSt.sem_alloc)).1
      (by
        intro m t hmt
        rcases m with _ | _ | m
        · simp [crossSt] at hmt
          omega
        · simp [crossSt] at hmt
          omega
        · simp [crossSt, List.getD] at hmt)
      (by decide),
   (detectors_terminate crossSt.mutex_alloc (crossSt.mutex_request.set 0 (some 1))
      (semCrossSt.sem_request.set 1 (some 0)) semCrossSt.sem_alloc 2 0 1 2
      semCrossSt.sem_avail (initUnfinished semCrossSt.sem_alloc)).2 (by decide)⟩

/-! C5: semaphore conservation.  Helper lemmas about out-of-range reads and
the remaining syscall outcomes, then preservation of `WF ∧ ConsInv` by every
quiescent step. -/

theorem getD_of_length_le (l : List α) (i : Nat) (d : α) (h : l.length ≤ i) :
    l.getD i d = d := by
  rw [List.getD_eq_getElem?_getD, List.getElem?_eq_none h]
  rfl

theorem getD_set_zero (row : List Nat) (i : Nat) : (row.set i 0).getD i 0 = 0 := by
  by_cases h : i < row.length
  · exact getD_set_self row i 0 0 h
  · rw [List.set_eq_of_length_le (by omega)]
    exact getD_of_length_le row i 0 (by omega)

theorem getD_append_zero (row : List Nat) (i : Nat) :
    (row ++ [0]).getD i 0 = row.getD i 0 := by
  by_cases h : i = row.length
  · subst h
    rw [getD_append_len, getD_of_length_le row _ 0 (le_refl _)]
  · exact getD_append_ne row 0 0 i h

/-- A step that leaves the three semaphore ledger fields unchanged preserves
`WF` and `ConsInv`. -/
theorem wf_inv_of_sem_fields_eq (st st2 : PState)
    (h1 : st2.semaphore_list = st.semaphore_list)
    (h2 : st2.sem_avail = st.sem_avail)
    (h3 : st2.sem_alloc = st.sem_alloc)
    (hwf : WF st) (hinv : ConsInv st) : WF st2 ∧ ConsInv st2 := by
  constructor
  · unfold WF
    rw [h1, h2, h3]
    exact hwf
  · intro s cc hs
    rw [h1] at hs
    have := hinv s cc hs
    unfold semSum heldSum
    rw [h2, h3]
    exact this

/-- `sys_enable_deadlock_detect` never touches the semaphore ledger. -/
theorem enable_sem_fields (st : PState) (e : Nat) :
    (sys_enable_deadlock_detect st e).2.semaphore_list = st.semaphore_list ∧
    (sys_enable_deadlock_detect st e).2.sem_avail = st.sem_avail ∧
    (sys_enable_deadlock_detect st e).2.sem_alloc = st.sem_alloc := by
  refine ⟨?_, ?_, ?_⟩ <;> (unfold sys_enable_deadlock_detect; split <;> rfl)

/-- `sys_mutex_create` never touches the semaphore ledger. -/
theorem mutex_create_sem_fields (st : PState) (b : Bool) :
    (sys_mutex_create st b).2.semaphore_list = st.semaphore_list ∧
    (sys_mutex_create st b).2.sem_avail = st.sem_avail ∧
    (sys_mutex_create st b).2.sem_alloc = st.sem_alloc := by
  refine ⟨?_, ?_, ?_⟩ <;> (unfold sys_mutex_create; split <;> split <;> rfl)

/-- `sys_condvar_create` never touches the semaphore ledger. -/
theorem condvar_create_sem_fields (st : PState) :
    (sys_condvar_create st).2.semaphore_list = st.semaphore_list ∧
    (sys_condvar_create st).2.sem_avail = st.sem_avail ∧
    (sys_condvar_create st).2.sem_alloc = st.sem_alloc := by
  refine ⟨?_, ?_, ?_⟩ <;> (unfold sys_condvar_create; split <;> rfl)

/-- A completed signal changes nothing. -/
theorem signal_state (st st2 : PState) (cid : Nat) (r : Int)
    (h : sys_condvar_signal st cid = some (r, st2)) : st2 = st := by
  unfold sys_condvar_signal at h
  split at h
  · exact absurd h (by simp)
  · injection h with h2
    exact (congrArg Prod.snd h2).symm

/-- A completed wait changes nothing in this file's ledger. -/
theorem wait_state (st st2 : PState) (cid mid : Nat) (r : Int)
    (h : sys_condvar_wait st cid mid = some (r, st2)) : st2 = st := by
  unfold sys_condvar_wait at h
  split at h
  · injection h with h2
    exact (congrArg Prod.snd h2).symm
  · exact absurd h (by simp_all)

/-- A completed unlock clears exactly the recorded holder. -/
theorem unlock_state (st st2 : PState) (mid : Nat) (r : Int)
    (h : sys_mutex_unlock st mid = some (r, st2)) :
    st2 = { st with mutex_alloc := st.mutex_alloc.set mid none } := by
  unfold sys_mutex_unlock at h
  split at h
  · exact absurd h (by simp)
  · injection h with h2
    exact (congrArg Prod.snd h2).symm

/-- `sys_semaphore_create` preserves well-formedness and conservation, and
establishes conservation (sum = `res_count`) for the slot it installs. -/
theorem semCreate_preserves (st : PState) (c : Nat)
    (hwf : WF st) (hinv : ConsInv st) :
    WF (sys_semaphore_create st c).2 ∧ ConsInv (sys_semaphore_create st c).2 := by
  obtain ⟨hlen, hrows⟩ := hwf
  cases hf : findFree st.semaphore_list with
  | some id =>
    have hid : id < st.semaphore_list.length := by
      by_contra hge
      have h1 := ((findFree_eq_some_iff _ _).1 hf).1
      rw [List.getElem?_eq_none (by omega)] at h1
      exact absurd h1 (by simp)
    simp only [sys_semaphore_create, hf]
    refine ⟨⟨by simp [hlen], ?_⟩, ?_⟩
    · intro row hrow
      simp only [List.mem_map] at hrow
      obtain ⟨row0, hrow0, rfl⟩ := hrow
      simp [hrows row0 hrow0]
    · intro s cc hs
      simp only at hs
      unfold semSum heldSum
      simp only [List.map_map]
      by_cases hsid : s = id
      · subst hsid
        rw [getD_set_self _ _ _ _ hid] at hs
        injection hs with hcc
        rw [getD_set_self _ _ _ _ (by omega)]
        have hz : ((st.sem_alloc.map
            ((fun row => row.getD s 0) ∘ fun row => row.set s 0))).sum = 0 := by
          apply List.sum_eq_zero
          intro x hx
          simp only [List.mem_map, Function.comp] at hx
          obtain ⟨row0, -, rfl⟩ := hx
          exact getD_set_zero row0 s
        rw [hz, hcc]
        omega
      · rw [getD_set_ne _ _ _ _ _ (fun he => hsid he.symm)] at hs
        have hmain := hinv s cc hs
        unfold semSum heldSum at hmain
        rw [getD_set_ne _ _ _ _ _ (fun he => hsid he.symm)]
        have hcg : st.sem_alloc.map ((fun row => row.getD s 0) ∘ fun row => row.set id 0) =
            st.sem_alloc.map (fun row => row.getD s 0) := by
          apply List.map_congr_left
          intro row0 hrow0
          exact getD_set_ne row0 id s 0 0 (fun he => hsid he.symm)
        rw [hcg]
        exact hmain
  | none =>
    simp only [sys_semaphore_create, hf]
    refine ⟨⟨by simp [hlen], ?_⟩, ?_⟩
    · intro row hrow
      simp only [List.mem_map] at hrow
      obtain ⟨row0, hrow0, rfl⟩ := hrow
      simp [hrows row0 hrow0]
    · intro s cc hs
      simp only at hs
      unfold semSum heldSum
      simp only [List.map_map]
      have hcg : st.sem_alloc.map ((fun row => row.getD s 0) ∘ fun row => row ++ [0]) =
          st.sem_alloc.map (fun row => row.getD s 0) := by
        apply List.map_congr_left
        intro row0 hrow0
        exact getD_append_zero row0 s
      rw [hcg]
      by_cases hsl : s = st.semaphore_list.length
      · subst hsl
        rw [getD_append_len] at hs
        injection hs with hcc
        have hav : (st.sem_avail ++ [c]).getD st.semaphore_list.length 0 = c := by
          rw [← hlen]
          exact getD_append_len st.sem_avail c 0
        have hz : (st.sem_alloc.map (fun row => row.getD st.semaphore_list.length 0)).sum = 0 := by
          apply List.sum_eq_zero
          intro x hx
          simp only [List.mem_map] at hx
          obtain ⟨row0, hrow0, rfl⟩ := hx
          exact getD_of_length_le row0 _ 0 (le_of_eq (hrows row0 hrow0))
        rw [hav, hz, hcc]
        omega
      · rw [getD_append_ne _ _ _ _ hsl] at hs
        have hmain := hinv s cc hs
        unfold semSum heldSum at hmain
        rw [getD_append_ne _ _ _ _ (fun he => hsl (he.trans hlen))]
        exact hmain

/-- A completed up (with the caller's held count nonzero, the spec's caller
precondition) preserves well-formedness and conservation: it moves exactly
one unit from the held column back to `sem_avail`. -/
theorem semUp_preserves (st st2 : PState) (tid sid : Nat) (r : Int)
    (hheld : 0 < (st.sem_alloc.getD tid []).getD sid 0)
    (h : sys_semaphore_up st tid sid = some (r, st2))
    (hwf : WF st) (hinv : ConsInv st) : WF st2 ∧ ConsInv st2 := by
  obtain ⟨hlen, hrows⟩ := hwf
  obtain ⟨⟨c0, hc0⟩, -, hst2⟩ := up_state st st2 tid sid r h
  subst hst2
  have htid : tid < st.sem_alloc.length := by
    by_contra hge
    rw [getD_of_length_le st.sem_alloc tid [] (by omega)] at hheld
    simp at hheld
  have hrowlen : (st.sem_alloc.getD tid []).length = st.semaphore_list.length :=
    hrows _ (getD_mem _ _ _ htid)
  have hsidrow : sid < (st.sem_alloc.getD tid []).length := by
    by_contra hge
    rw [getD_of_length_le (st.sem_alloc.getD tid []) sid 0 (by omega)] at hheld
    simp at hheld
  have hsida : sid < st.sem_avail.length := by omega
  constructor
  · refine ⟨by simp [hlen], ?_⟩
    intro row hrow
    rcases List.mem_or_eq_of_mem_set hrow with h1 | h1
    · exact hrows row h1
    · subst h1
      rw [List.length_set]
      exact hrowlen
  · intro s cc hs
    have hmain := hinv s cc hs
    unfold semSum heldSum at hmain ⊢
    simp only
    have hss := map_sum_set_getD (fun row => row.getD s 0) st.sem_alloc tid
      ((st.sem_alloc.getD tid []).set sid ((st.sem_alloc.getD tid []).getD sid 0 - 1)) [] htid
    simp only at hss
    by_cases hssid : s = sid
    · subst hssid
      rw [getD_set_self _ _ _ _ hsidrow] at hss
      rw [getD_set_self _ _ _ _ hsida]
      omega
    · rw [getD_set_ne _ _ _ _ _ (fun he => hssid he.symm)] at hss
      rw [getD_set_ne _ _ _ _ _ (fun he => hssid he.symm)]
      omega

/-- A granted down at a quiescent point (a unit available, the caller's
ledger row present) preserves well-formedness and conservation: it moves
exactly one unit from `sem_avail` to the caller's held column. -/
theorem semDownGranted_preserves (st st2 : PState) (tid sid : Nat)
    (havail : 0 < st.sem_avail.getD sid 0)
    (htid : tid < st.sem_alloc.length)
    (h : sys_semaphore_down st tid sid = .granted st2)
    (hwf : WF st) (hinv : ConsInv st) : WF st2 ∧ ConsInv st2 := by
  obtain ⟨hlen, hrows⟩ := hwf
  obtain ⟨⟨c0, hc0⟩, hst2⟩ := down_granted_state st st2 tid sid h
  subst hst2
  have hsids : sid < st.semaphore_list.length := by
    by_contra hge
    rw [slotGet, getD_of_length_le _ _ _ (by omega)] at hc0
    exact absurd hc0 (by simp)
  have hrowlen : (st.sem_alloc.getD tid []).length = st.semaphore_list.length :=
    hrows _ (getD_mem _ _ _ htid)
  have hsidrow : sid < (st.sem_alloc.getD tid []).length := by omega
  have hsida : sid < st.sem_avail.length := by omega
  constructor
  · refine ⟨by simp [hlen], ?_⟩
    intro row hrow
    rcases List.mem_or_eq_of_mem_set hrow with h1 | h1
    · exact hrows row h1
    · subst h1
      rw [List.length_set]
      exact hrowlen
  · intro s cc hs
    have hmain := hinv s cc hs
    unfold semSum heldSum at hmain ⊢
    simp only
    have hss := map_sum_set_getD (fun row => row.getD s 0) st.sem_alloc tid
      ((st.sem_alloc.getD tid []).set sid ((st.sem_alloc.getD tid []).getD sid 0 + 1)) [] htid
    simp only at hss
    by_cases hssid : s = sid
    · subst hssid
      rw [getD_set_self _ _ _ _ hsidrow] at hss
      rw [getD_set_self _ _ _ _ hsida]
      omega
    · rw [getD_set_ne _ _ _ _ _ (fun he => hssid he.symm)] at hss
      rw [getD_set_ne _ _ _ _ _ (fun he => hssid he.symm)]
      omega

/-- Every quiescent step preserves well-formedness and semaphore
conservation. -/
theorem qstep_preserves (st st2 : PState) (hstep : QStep st st2)
    (hwf : WF st) (hinv : ConsInv st) : WF st2 ∧ ConsInv st2 := by
  cases hstep with
  | enableDet e =>
    obtain ⟨h1, h2, h3⟩ := enable_sem_fields st e
    exact wf_inv_of_sem_fields_eq _ _ h1 h2 h3 hwf hinv
  | mutexCreate b =>
    obtain ⟨h1, h2, h3⟩ := mutex_create_sem_fields st b
    exact wf_inv_of_sem_fields_eq _ _ h1 h2 h3 hwf hinv
  | mutexLockGranted st3 tid mid h =>
    rw [lock_granted_state _ _ _ _ h]
    exact wf_inv_of_sem_fields_eq _ _ rfl rfl rfl hwf hinv
  | mutexLockDeadlock st3 tid mid h =>
    rw [lock_deadlock_state _ _ _ _ h]
    exact wf_inv_of_sem_fields_eq _ _ rfl rfl rfl hwf hinv
  | mutexUnlock st3 mid r h =>
    rw [unlock_state _ _ _ _ h]
    exact wf_inv_of_sem_fields_eq _ _ rfl rfl rfl hwf hinv
  | semCreate c =>
    exact semCreate_preserves st c ⟨hwf.1, hwf.2⟩ hinv
  | semUp st3 tid sid r hheld h =>
    exact semUp_preserves _ _ tid sid r hheld h hwf hinv
  | semDownGranted st3 tid sid havail htid h =>
    exact semDownGranted_preserves _ _ tid sid havail htid h hwf hinv
  | semDownDeadlock st3 tid sid h =>
    rw [down_deadlock_state _ _ _ _ h]
    exact wf_inv_of_sem_fields_eq _ _ rfl rfl rfl hwf hinv
  | condCreate =>
    obtain ⟨h1, h2, h3⟩ := condvar_create_sem_fields st
    exact wf_inv_of_sem_fields_eq _ _ h1 h2 h3 hwf hinv
  | condSignal st3 cid r h =>
    rw [signal_state _ _ _ _ h]
    exact ⟨hwf, hinv⟩
  | condWait st3 cid mid r h =>
    rw [wait_state _ _ _ _ _ h]
    exact ⟨hwf, hinv⟩

/-- C5: semaphore conservation.  From any well-formed state satisfying the
conservation invariant, any sequence of completed quiescent dispatcher
operations leads only to states still satisfying it: for every allocated
semaphore slot `s` created with `res_count` `c`,
`sem_avail[s] + Σ_t sem_alloc[t][s] = c`.  Creation establishes the equation
(`semCreate_preserves`), a completed up (held count nonzero) adds one to
`sem_avail[s]` and subtracts one from the caller's held count, and a granted
down does the reverse, so every up/down pair preserves the sum. -/
theorem sem_conservation (st st2 : PState)
    (hwf : WF st) (hinv : ConsInv st)
    (hsteps : Relation.ReflTransGen QStep st st2) :
    WF st2 ∧ ConsInv st2 := by
  induction hsteps with
  | refl => exact ⟨hwf, hinv⟩
  | tail hs hstep ih => exact qstep_preserves _ _ hstep ih.1 ih.2

/-- Witness for C5: creating a capacity-2 semaphore in a one-thread process
yields a state whose slot 0 satisfies the conservation equation with sum 2. -/
theorem sem_conservation_w :
    semSum (sys_semaphore_create oneThreadSt 2).2 0 = 2 :=
  (sem_conservation oneThreadSt (sys_semaphore_create oneThreadSt 2).2
    ⟨rfl, by intro row hrow; simp [oneThreadSt] at hrow; simp [hrow, oneThreadSt]⟩
    (by
      intro s c hs
      simp [oneThreadSt, List.getD] at hs)
    (Relation.ReflTransGen.single (QStep.semCreate oneThreadSt 2))).2 0 2 (by decide)

end Os8Sync
